import Mathlib

/-!
# Verification of the Symphony generative-model core (`src/models.py`,
# `src/symphony/models/position_predictor.py`)

Shallow embedding of the data model and the operations of the autoregressive
generative model: the fragment/batch representation, the focus/species/position
prediction heads of the `MACE` wrapper, the segment-restricted categorical
sampler, the `GSchNet` species head, the radial-bin constructors, and the
`S2Activation` resolution bookkeeping.

Neural sub-modules that live in external libraries (`mace_jax.modules.MACE`,
`hk.Embed`, `e3nn` linear layers and spherical transforms, the `jax.random`
bit-generator) are represented by abstract function parameters; every piece of
control flow and index arithmetic that lives in this repository is translated
directly from the source.  Machine floats are modelled by exact rationals, and
the transcendental `exp` used by the softmaxes is abstracted by an arbitrary
strictly positive function.
-/

/-! ## Basic list utilities used by the embedding -/

/-- Running totals of a list of naturals, starting from `acc`
(`cumsumFromNat acc [a, b, c] = [acc+a, acc+a+b, acc+a+b+c]`). -/
def cumsumFromNat (acc : Nat) : List Nat → List Nat
  | [] => []
  | x :: xs => (acc + x) :: cumsumFromNat (acc + x) xs

/-- `jnp.cumsum` on a vector of naturals. -/
def cumsumNat (l : List Nat) : List Nat := cumsumFromNat 0 l

theorem cumsumFromNat_length (l : List Nat) : ∀ acc, (cumsumFromNat acc l).length = l.length := by
  induction l with
  | nil => intro acc; rfl
  | cons x xs ih => intro acc; simp [cumsumFromNat, ih]

theorem cumsumFromNat_get? (l : List Nat) :
    ∀ (acc i : Nat), i < l.length →
      (cumsumFromNat acc l).get? i = some (acc + (l.take (i + 1)).sum) := by
  induction l with
  | nil => intro acc i h; simp at h
  | cons x xs ih =>
    intro acc i h
    cases i with
    | zero => simp [cumsumFromNat]
    | succ j =>
      simp only [cumsumFromNat, List.get?_cons_succ, List.take_succ_cons, List.sum_cons]
      rw [ih (acc + x) j (by simpa using h)]
      congr 1
      omega

/-- `(List.zipWith f a b).get? n` in terms of the two operands. -/
theorem zipWith_get? {α β γ : Type} (f : α → β → γ) :
    ∀ (a : List α) (b : List β) (n : Nat) (x : α) (y : β),
      a.get? n = some x → b.get? n = some y →
      (List.zipWith f a b).get? n = some (f x y) := by
  intro a
  induction a with
  | nil => intro b n x y hx; simp at hx
  | cons p ps ih =>
    intro b n x y hx hy
    cases b with
    | nil => simp at hy
    | cons q qs =>
      cases n with
      | zero =>
        simp at hx hy
        simp [List.zipWith, hx, hy]
      | succ m =>
        simp only [List.get?_cons_succ] at hx hy
        simpa [List.zipWith] using ih qs m x y hx hy

/-! ## The fragment (batched graph) data model -/

/-- A 3D position vector with exact rational coordinates. -/
abbrev Vec3 : Type := ℚ × ℚ × ℚ

/-- Per-node data of a batch: `nodes.positions` and `nodes.species`. -/
structure NodesInfo where
  positions : List Vec3
  species : List Nat

/-- Per-graph global data of a batch: the teacher-forcing label
`target_species` and the `stop` flag. -/
structure FragmentGlobals where
  target_species : List Nat
  stop : List Bool

/-- A padded batch of molecular fragments (`jraph.GraphsTuple` /
`datatypes.Fragment`): nodes of all graphs concatenated, directed edges given
by parallel `senders`/`receivers` index lists, and per-graph node counts
`n_node`.  Nodes of one graph occupy a contiguous index range. -/
structure Fragment where
  nodes : NodesInfo
  senders : List Nat
  receivers : List Nat
  n_node : List Nat
  globals : FragmentGlobals

/-- `get_first_node_indices` (src/models.py:21-23):
`jnp.concatenate((jnp.asarray([0]), jnp.cumsum(graphs.n_node)[:-1]))`. -/
def get_first_node_indices (graphs : Fragment) : List Nat :=
  0 :: (cumsumNat graphs.n_node).dropLast

/-- The index of graph `g`'s first node is the sum of the node counts of all
preceding graphs. -/
theorem get_first_node_indices_get? (graphs : Fragment) (g : Nat)
    (hg : g < graphs.n_node.length) :
    (get_first_node_indices graphs).get? g = some ((graphs.n_node.take g).sum) := by
  unfold get_first_node_indices
  cases g with
  | zero => simp
  | succ j =>
    simp only [List.get?_cons_succ]
    rw [List.dropLast_eq_take, List.get?_take]
    · have := cumsumFromNat_get? graphs.n_node 0 j (by omega)
      simpa [cumsumNat] using this
    · have hl : (cumsumNat graphs.n_node).length = graphs.n_node.length := by
        simpa [cumsumNat] using cumsumFromNat_length graphs.n_node 0
      omega

theorem get_first_node_indices_length (graphs : Fragment)
    (hG : 1 ≤ graphs.n_node.length) :
    (get_first_node_indices graphs).length = graphs.n_node.length := by
  have hl : (cumsumNat graphs.n_node).length = graphs.n_node.length := by
    simpa [cumsumNat] using cumsumFromNat_length graphs.n_node 0
  simp only [get_first_node_indices, List.length_cons, List.length_dropLast, hl]
  omega

/-! ## The MACE wrapper model (src/models.py:470-677)

The equivariant encoder `mace_jax.modules.MACE` and the learned heads
(`e3nn.haiku.Linear`, `e3nn.haiku.MultiLayerPerceptron`, `hk.Embed`) are
external library modules; they are abstracted as function parameters.  What is
translated from the source is the dataflow of the wrapper: which inputs each
head receives and how node/graph indices are computed. -/

/-- Abstract parameters of the `MACE` wrapper.  `encoder` stands for
`mace_jax.modules.MACE` applied to (edge vectors, species, senders, receivers);
`focusLogit` for the `e3nn.haiku.Linear("0e")` readout applied per node;
`speciesLogits` for the species MLP applied per focus-node embedding;
`positionCoeffs` for `MACE.target_position` applied to one focus-node
embedding and one target species (returning coefficients per radius). -/
structure MACEModel (Emb : Type) where
  encoder : List Vec3 → List Nat → List Nat → List Nat → List Emb
  focusLogit : Emb → ℚ
  speciesLogits : Emb → List ℚ
  positionCoeffs : Emb → Nat → List (List ℚ)

namespace MACE

/-- The edge displacement vectors of `MACE.node_embeddings`
(src/models.py:509-512):
`graphs.nodes.positions[graphs.receivers] - graphs.nodes.positions[graphs.senders]`.
Out-of-range indices (a precondition violation in the source) default to the
origin. -/
def edgeVectors (graphs : Fragment) : List Vec3 :=
  List.zipWith
    (fun r s => graphs.nodes.positions.getD r 0 - graphs.nodes.positions.getD s 0)
    graphs.receivers graphs.senders

/-- `MACE.node_embeddings` (src/models.py:499-536): computes the edge vectors
and hands them, with species and connectivity, to the `mace_jax` encoder. -/
def node_embeddings {Emb : Type} (M : MACEModel Emb) (graphs : Fragment) : List Emb :=
  M.encoder (edgeVectors graphs) graphs.nodes.species graphs.senders graphs.receivers

end MACE

/-- `datatypes.Predictions` as returned by `MACE.get_training_predictions`. -/
structure Predictions where
  focus_logits : List ℚ
  target_species_logits : List (List ℚ)
  position_coeffs : List (List (List ℚ))

namespace MACE

/-- `MACE.get_training_predictions` (src/models.py:594-620): evaluates the
focus head on every node and the species/position heads on the first node of
every graph (the teacher-forced focus), pairing graph `g` with
`graphs.globals.target_species[g]`. -/
def get_training_predictions {Emb : Type} [Inhabited Emb]
    (M : MACEModel Emb) (graphs : Fragment) : Predictions :=
  let node_embs := node_embeddings M graphs
  let focus_logits := node_embs.map M.focusLogit
  let focus_node_indices := get_first_node_indices graphs
  let true_focus_node_embeddings := focus_node_indices.map (fun i => node_embs.getD i default)
  let target_species_logits := true_focus_node_embeddings.map M.speciesLogits
  let position_coeffs :=
    List.zipWith M.positionCoeffs true_focus_node_embeddings graphs.globals.target_species
  { focus_logits := focus_logits
    target_species_logits := target_species_logits
    position_coeffs := position_coeffs }

end MACE

/-- Replacing only the per-graph `stop` flags of a batch. -/
def setStop (graphs : Fragment) (s : List Bool) : Fragment :=
  { graphs with globals := { graphs.globals with stop := s } }

/-- C1: In training mode, `MACE.get_training_predictions` evaluates all three
heads unconditionally: one focus logit per node, and for every graph `g` the
species logits and position coefficients are computed from the embedding of
the node at index `(n_node.take g).sum` — the sum of the node counts of all
preceding graphs (index 0 for the first graph) — regardless of the `stop`
flags. -/
theorem training_predictions_all_heads {Emb : Type} [Inhabited Emb]
    (M : MACEModel Emb) (graphs : Fragment) (s : List Bool) (g : Nat)
    (hg : g < graphs.n_node.length)
    (hts : g < graphs.globals.target_species.length) :
    (MACE.get_training_predictions M graphs).focus_logits.length
        = (MACE.node_embeddings M graphs).length
    ∧ (MACE.get_training_predictions M graphs).target_species_logits.get? g
        = some (M.speciesLogits
            ((MACE.node_embeddings M graphs).getD ((graphs.n_node.take g).sum) default))
    ∧ (MACE.get_training_predictions M graphs).position_coeffs.get? g
        = some (M.positionCoeffs
            ((MACE.node_embeddings M graphs).getD ((graphs.n_node.take g).sum) default)
            (graphs.globals.target_species.getD g 0))
    ∧ MACE.get_training_predictions M (setStop graphs s)
        = MACE.get_training_predictions M graphs := by
  have hidx := get_first_node_indices_get? graphs g hg
  have hfoc : ((get_first_node_indices graphs).map
      (fun i => (MACE.node_embeddings M graphs).getD i default)).get? g
      = some ((MACE.node_embeddings M graphs).getD ((graphs.n_node.take g).sum) default) := by
    rw [List.get?_map, hidx]; rfl
  refine ⟨by simp [MACE.get_training_predictions], ?_, ?_, rfl⟩
  · show (((get_first_node_indices graphs).map
        (fun i => (MACE.node_embeddings M graphs).getD i default)).map M.speciesLogits).get? g = _
    rw [List.get?_map, hfoc]
    rfl
  · have hts' : graphs.globals.target_species.get? g
        = some (graphs.globals.target_species.getD g 0) := by
      rw [List.getD_eq_getElem?_getD, List.get?_eq_getElem?]
      cases h : graphs.globals.target_species[g]? with
      | none => exact absurd (List.getElem?_eq_none_iff.mp h) (by omega)
      | some v => rfl
    exact zipWith_get? M.positionCoeffs _ _ g _ _ hfoc hts'

/-! ## C2: rotation equivariance of the encoder wrapper -/

/-- A 3×3 rational matrix, given by rows; used to represent a rotation. -/
structure Mat3 where
  r1 : Vec3
  r2 : Vec3
  r3 : Vec3

/-- Euclidean inner product on `Vec3`. -/
def dot3 (u v : Vec3) : ℚ := u.1 * v.1 + u.2.1 * v.2.1 + u.2.2 * v.2.2

/-- Matrix–vector application. -/
def Mat3.apply (A : Mat3) (v : Vec3) : Vec3 := (dot3 A.r1 v, dot3 A.r2 v, dot3 A.r3 v)

theorem Mat3.apply_sub (A : Mat3) (u v : Vec3) :
    A.apply (u - v) = A.apply u - A.apply v := by
  obtain ⟨u1, u2, u3⟩ := u
  obtain ⟨v1, v2, v3⟩ := v
  simp only [Mat3.apply, dot3, Prod.mk_sub_mk]
  refine congrArg₂ _ (by ring) (congrArg₂ _ (by ring) (by ring))

theorem Mat3.apply_zero (A : Mat3) : A.apply 0 = 0 := by
  simp only [Mat3.apply, dot3]
  have h0 : (0 : Vec3) = ((0 : ℚ), (0 : ℚ), (0 : ℚ)) := rfl
  rw [h0]
  norm_num

/-- Rotating a fragment: apply `A` to all atom positions, leaving species,
senders and receivers unchanged. -/
def rotateFragment (A : Mat3) (graphs : Fragment) : Fragment :=
  { graphs with nodes := { graphs.nodes with positions := graphs.nodes.positions.map A.apply } }

theorem getD_map_apply (A : Mat3) (l : List Vec3) (n : Nat) :
    (l.map A.apply).getD n 0 = A.apply (l.getD n 0) := by
  have h : (l.map A.apply).getD n (A.apply 0) = A.apply (l.getD n 0) := List.getD_map l 0 A.apply
  rwa [Mat3.apply_zero] at h

theorem edgeVectors_rotate (A : Mat3) (graphs : Fragment) :
    MACE.edgeVectors (rotateFragment A graphs) = (MACE.edgeVectors graphs).map A.apply := by
  show List.zipWith
      (fun r s => (graphs.nodes.positions.map A.apply).getD r 0
        - (graphs.nodes.positions.map A.apply).getD s 0)
      graphs.receivers graphs.senders = _
  unfold MACE.edgeVectors
  rw [List.map_zipWith]
  congr 1
  funext r s
  rw [getD_map_apply, getD_map_apply, Mat3.apply_sub]

/-- C2: for every fragment and every matrix `A`, if the external
`mace_jax` encoder is equivariant — rotating every edge vector by `A`
rotates every output feature by the action `ρ` (the degree-wise
Wigner rotation of the irreps features) — then `MACE.node_embeddings`
applied to the fragment with all atom positions rotated by `A` equals
the per-node `ρ`-rotation of `MACE.node_embeddings` of the original
fragment: species, senders and receivers are unchanged and the edge
vectors rotate linearly with the positions. -/
theorem node_embeddings_equivariant {Emb : Type} (M : MACEModel Emb) (A : Mat3)
    (rho : Emb → Emb) (graphs : Fragment)
    (hEq : ∀ (vecs : List Vec3) (sp s r : List Nat),
      M.encoder (vecs.map A.apply) sp s r = (M.encoder vecs sp s r).map rho) :
    MACE.node_embeddings M (rotateFragment A graphs)
      = (MACE.node_embeddings M graphs).map rho := by
  unfold MACE.node_embeddings
  rw [show (rotateFragment A graphs).nodes.species = graphs.nodes.species from rfl,
      show (rotateFragment A graphs).senders = graphs.senders from rfl,
      show (rotateFragment A graphs).receivers = graphs.receivers from rfl,
      edgeVectors_rotate, hEq]

/-! ## The pseudo-random generator model and `segment_sample`

`jax.random` keys and bit generation are external; a `RandomModel` supplies
the key-splitting functions and the uniform draw in `[0, 1)`.  The categorical
draw `jax.random.choice(key, a, p=...)` over `a = arange(len(p))` is itself a
concrete algorithm (cumulative sums plus `searchsorted`), which is translated
here. -/

/-- A PRNG key (`chex.PRNGKey`), abstracted. -/
abbrev Key := Nat

/-- The external `jax.random` primitives: `split2` is
`jax.random.split(key)` unpacked into two keys, `splitN key n` is
`jax.random.split(key, n)`, and `uniform` is one standard uniform draw. -/
structure RandomModel where
  split2 : Key → Key × Key
  splitN : Key → Nat → List Key
  uniform : Key → ℚ

/-- Running totals of a rational list, starting from `acc`. -/
def cumsumFrom (acc : ℚ) : List ℚ → List ℚ
  | [] => []
  | x :: xs => (acc + x) :: cumsumFrom (acc + x) xs

/-- `jnp.cumsum` on a rational vector. -/
def cumsum (l : List ℚ) : List ℚ := cumsumFrom 0 l

/-- `jnp.searchsorted(a, v)` with the default side `left`: the first index
whose entry is `≥ v` (the length of `a` if there is none). -/
def searchsorted (a : List ℚ) (v : ℚ) : Nat := a.findIdx (fun x => decide (v ≤ x))

/-- `jax.random.choice(key, jnp.arange(p.length), p=p)`: draw `r` uniformly in
`(0, total]` where `total` is the last cumulative sum, and return the first
index whose cumulative sum reaches `r`. -/
def random_choice (R : RandomModel) (key : Key) (p : List ℚ) : Nat :=
  searchsorted (cumsum p) ((cumsum p).getLastD 0 * (1 - R.uniform key))

/-- `jnp.where(i == segment_ids, probabilities, 0.)` (src/models.py:38). -/
def maskedProbs (segment_ids : List Nat) (probabilities : List ℚ) (i : Nat) : List ℚ :=
  List.zipWith (fun s p => if i = s then p else 0) segment_ids probabilities

/-- `sample_for_segment` (src/models.py:37-38). -/
def sample_for_segment (R : RandomModel) (probabilities : List ℚ) (segment_ids : List Nat)
    (rng : Key) (i : Nat) : Nat :=
  random_choice R rng (maskedProbs segment_ids probabilities i)

/-- `segment_sample` (src/models.py:26-42): split the key into `num_segments`
sub-keys and draw one index per segment with `sample_for_segment`. -/
def segment_sample (R : RandomModel) (probabilities : List ℚ) (segment_ids : List Nat)
    (num_segments : Nat) (rng : Key) : List Nat :=
  List.zipWith (sample_for_segment R probabilities segment_ids)
    (R.splitN rng num_segments) (List.range num_segments)

theorem cumsumFrom_length (l : List ℚ) : ∀ acc, (cumsumFrom acc l).length = l.length := by
  induction l with
  | nil => intro acc; rfl
  | cons x xs ih => intro acc; simp [cumsumFrom, ih]

theorem getLastD_cumsumFrom (l : List ℚ) :
    ∀ acc, (cumsumFrom acc l).getLastD acc = acc + l.sum := by
  induction l with
  | nil => intro acc; simp [cumsumFrom]
  | cons x xs ih =>
    intro acc
    rw [cumsumFrom, List.getLastD_cons, ih (acc + x)]
    simp [add_assoc]

/-- Core property of the categorical draw: if `r` lies strictly above the
starting accumulator and within the final cumulative total, the first index
whose cumulative sum reaches `r` is a valid index of a strictly positive
entry. -/
theorem searchsorted_cumsumFrom (r : ℚ) (l : List ℚ) :
    ∀ acc : ℚ, acc < r → r ≤ (cumsumFrom acc l).getLastD acc →
      searchsorted (cumsumFrom acc l) r < l.length ∧
      0 < l.getD (searchsorted (cumsumFrom acc l) r) 0 := by
  induction l with
  | nil =>
    intro acc h1 h2
    simp only [cumsumFrom, List.getLastD_nil] at h2
    linarith
  | cons x xs ih =>
    intro acc h1 h2
    by_cases hx : r ≤ acc + x
    · have hidx : searchsorted (cumsumFrom acc (x :: xs)) r = 0 := by
        simp [searchsorted, cumsumFrom, List.findIdx_cons, hx]
      rw [hidx]
      exact ⟨Nat.succ_pos _, by simp only [List.getD_cons_zero]; linarith⟩
    · rw [cumsumFrom, List.getLastD_cons] at h2
      have hrec := ih (acc + x) (by linarith [not_le.mp hx]) h2
      have hidx : searchsorted (cumsumFrom acc (x :: xs)) r
          = searchsorted (cumsumFrom (acc + x) xs) r + 1 := by
        simp [searchsorted, cumsumFrom, List.findIdx_cons, hx]
      rw [hidx]
      exact ⟨by simpa using hrec.1, by simpa [List.getD_cons_succ] using hrec.2⟩

theorem get?_eq_some_getD {α : Type} (l : List α) (n : Nat) (d : α) (h : n < l.length) :
    l.get? n = some (l.getD n d) := by
  rw [List.getD_eq_getElem?_getD, List.get?_eq_getElem?]
  cases hh : l[n]? with
  | none => exact absurd (List.getElem?_eq_none_iff.mp hh) (by omega)
  | some v => rfl

theorem sum_pos_of_mem_pos {l : List ℚ} (hl : ∀ q ∈ l, 0 ≤ q) {x : ℚ}
    (hx : x ∈ l) (hxpos : 0 < x) : 0 < l.sum := by
  induction l with
  | nil => simp at hx
  | cons a as ih =>
    rcases List.mem_cons.mp hx with rfl | hx'
    · have : 0 ≤ as.sum := List.sum_nonneg (fun q hq => hl q (List.mem_cons_of_mem _ hq))
      simp only [List.sum_cons]; linarith
    · have ha : 0 ≤ a := hl a (List.mem_cons_self a as)
      have := ih (fun q hq => hl q (List.mem_cons_of_mem _ hq)) hx'
      simp only [List.sum_cons]; linarith

theorem maskedProbs_nonneg (segment_ids : List Nat) (i : Nat) :
    ∀ (probabilities : List ℚ), (∀ q ∈ probabilities, 0 ≤ q) →
      ∀ q ∈ maskedProbs segment_ids probabilities i, 0 ≤ q := by
  induction segment_ids with
  | nil => intro probabilities _ q hq; simp [maskedProbs] at hq
  | cons s ss ih =>
    intro probabilities hp q hq
    cases probabilities with
    | nil => simp [maskedProbs] at hq
    | cons p ps =>
      simp only [maskedProbs, List.zipWith_cons_cons, List.mem_cons] at hq
      rcases hq with rfl | hq'
      · by_cases hcase : i = s
        · simpa [hcase] using hp p (List.mem_cons_self p ps)
        · simp [hcase]
      · exact ih ps (fun q' hq'' => hp q' (List.mem_cons_of_mem _ hq'')) q hq'

theorem maskedProbs_length (segment_ids : List Nat) (probabilities : List ℚ) (i : Nat)
    (hlen : segment_ids.length = probabilities.length) :
    (maskedProbs segment_ids probabilities i).length = segment_ids.length := by
  simp [maskedProbs, hlen]

theorem maskedProbs_get? (segment_ids : List Nat) (probabilities : List ℚ) (i k : Nat)
    (hlen : segment_ids.length = probabilities.length) (hk : k < segment_ids.length) :
    (maskedProbs segment_ids probabilities i).get? k
      = some (if i = segment_ids.getD k 0 then probabilities.getD k 0 else 0) :=
  zipWith_get? _ _ _ k _ _
    (get?_eq_some_getD segment_ids k 0 hk)
    (get?_eq_some_getD probabilities k 0 (hlen ▸ hk))

theorem maskedProbs_getD (segment_ids : List Nat) (probabilities : List ℚ) (i k : Nat)
    (hlen : segment_ids.length = probabilities.length) (hk : k < segment_ids.length) :
    (maskedProbs segment_ids probabilities i).getD k 0
      = if i = segment_ids.getD k 0 then probabilities.getD k 0 else 0 := by
  rw [List.getD_eq_getElem?_getD, ← List.get?_eq_getElem?,
    maskedProbs_get? segment_ids probabilities i k hlen hk]
  rfl

/-- The categorical draw lands on a valid index carrying strictly positive
probability, whenever the mass is positive and the uniform draw is in `[0,1)`. -/
theorem random_choice_mem (R : RandomModel) (key : Key) (p : List ℚ)
    (hp : ∀ q ∈ p, 0 ≤ q) (hpos : 0 < p.sum)
    (hu0 : 0 ≤ R.uniform key) (hu1 : R.uniform key < 1) :
    random_choice R key p < p.length ∧ 0 < p.getD (random_choice R key p) 0 := by
  have hlast : (cumsum p).getLastD 0 = p.sum := by
    simpa using getLastD_cumsumFrom p 0
  have hr0 : (0 : ℚ) < p.sum * (1 - R.uniform key) := mul_pos hpos (by linarith)
  have hr1 : p.sum * (1 - R.uniform key) ≤ p.sum := by nlinarith
  have h := searchsorted_cumsumFrom (p.sum * (1 - R.uniform key)) p 0 hr0
    (by rw [show (cumsumFrom 0 p).getLastD 0 = p.sum from by simpa using getLastD_cumsumFrom p 0]
        exact hr1)
  unfold random_choice
  rw [hlast]
  exact h

/-- C4: for nonnegative probabilities and a segment `i` (with `i` a valid
segment id) carrying strictly positive mass, `segment_sample` draws the index
for segment `i` from the `i`-th sub-key of `jax.random.split(rng, num_segments)`
(its own independent sub-stream), and the drawn index lies inside segment `i`:
it is a valid node index with `segment_ids[index] = i`. -/
theorem segment_sample_in_segment (R : RandomModel) (probabilities : List ℚ)
    (segment_ids : List Nat) (num_segments : Nat) (rng : Key) (i : Nat)
    (hlen : segment_ids.length = probabilities.length)
    (hsplit : (R.splitN rng num_segments).length = num_segments)
    (hu : ∀ k, 0 ≤ R.uniform k ∧ R.uniform k < 1)
    (hp : ∀ q ∈ probabilities, 0 ≤ q)
    (hi : i < num_segments)
    (j : Nat) (hj : j < segment_ids.length)
    (hseg : segment_ids.getD j 0 = i) (hpj : 0 < probabilities.getD j 0) :
    (segment_sample R probabilities segment_ids num_segments rng).get? i
      = some (sample_for_segment R probabilities segment_ids
          ((R.splitN rng num_segments).getD i 0) i)
    ∧ sample_for_segment R probabilities segment_ids
        ((R.splitN rng num_segments).getD i 0) i < segment_ids.length
    ∧ segment_ids.getD (sample_for_segment R probabilities segment_ids
        ((R.splitN rng num_segments).getD i 0) i) 0 = i := by
  set key := (R.splitN rng num_segments).getD i 0 with hkey
  set m := maskedProbs segment_ids probabilities i with hm
  have hmlen : m.length = segment_ids.length := maskedProbs_length _ _ _ hlen
  have hmnonneg : ∀ q ∈ m, 0 ≤ q := maskedProbs_nonneg segment_ids i probabilities hp
  have hmj : m.getD j 0 = probabilities.getD j 0 := by
    rw [hm, maskedProbs_getD segment_ids probabilities i j hlen hj, hseg, if_pos rfl]
  have hmem : m.getD j 0 ∈ m := by
    have h := get?_eq_some_getD m j (0 : ℚ) (by omega)
    exact List.get?_mem h
  have hmsum : 0 < m.sum := sum_pos_of_mem_pos hmnonneg hmem (by rw [hmj]; exact hpj)
  have hchoice := random_choice_mem R key m hmnonneg hmsum (hu key).1 (hu key).2
  have hidx : sample_for_segment R probabilities segment_ids key i < segment_ids.length := by
    have := hchoice.1
    unfold sample_for_segment
    rw [← hm]
    omega
  refine ⟨?_, hidx, ?_⟩
  · exact zipWith_get? _ _ _ i _ _
      (get?_eq_some_getD _ i 0 (by omega))
      (by simpa using List.get?_range hi)
  · have hpos := hchoice.2
    have := maskedProbs_getD segment_ids probabilities i
      (random_choice R key m) hlen (by omega)
    rw [← hm] at this
    rw [this] at hpos
    by_contra hne
    rw [if_neg (fun hcontra => hne hcontra.symm)] at hpos
    exact lt_irrefl 0 hpos

/-! ## `jraph.partition_softmax` and the focus probabilities (C5, C6)

`jraph.partition_softmax(logits, graphs.n_node, num_nodes)` computes, inside
each graph's contiguous node range, `exp(logit - max) / sum(exp(logit - max))`.
The transcendental `exp` is abstracted as a parameter `E` (its only property
used anywhere is strict positivity). -/

/-- Split a flat per-node vector into per-graph chunks of sizes `ns`. -/
def splitInto {α : Type} : List α → List Nat → List (List α)
  | _, [] => []
  | xs, n :: ns => xs.take n :: splitInto (xs.drop n) ns

/-- Maximum of a rational list (`0` for the empty list). -/
def maxD : List ℚ → ℚ
  | [] => 0
  | x :: xs => xs.foldl max x

/-- The per-graph softmax normalizer `sum(exp(logit - max))`. -/
def softmaxDenom (E : ℚ → ℚ) (xs : List ℚ) : ℚ :=
  (xs.map (fun x => E (x - maxD xs))).sum

/-- Max-stabilized softmax of one graph's logits. -/
def softmax1 (E : ℚ → ℚ) (xs : List ℚ) : List ℚ :=
  xs.map (fun x => E (x - maxD xs) / softmaxDenom E xs)

/-- `jraph.partition_softmax` (src/models.py:636): per-graph softmax over the
flat logit vector, chunked by `n_node`. -/
def partition_softmax (E : ℚ → ℚ) (logits : List ℚ) (n_node : List Nat) : List ℚ :=
  ((splitInto logits n_node).map (softmax1 E)).flatten

theorem softmax1_nil (E : ℚ → ℚ) : softmax1 E [] = [] := rfl

theorem splitInto_length {α : Type} (ns : List Nat) :
    ∀ xs : List α, (splitInto xs ns).length = ns.length := by
  induction ns with
  | nil => intro xs; rfl
  | cons n ns ih => intro xs; simp [splitInto, ih]

theorem splitInto_map_length {α : Type} (ns : List Nat) :
    ∀ xs : List α, ns.sum = xs.length →
      (splitInto xs ns).map List.length = ns := by
  induction ns with
  | nil => intro xs _; rfl
  | cons n ns ih =>
    intro xs hsum
    simp only [List.sum_cons] at hsum
    have hn : n ≤ xs.length := by omega
    simp only [splitInto, List.map_cons, List.length_take]
    rw [min_eq_left hn]
    congr 1
    exact ih (xs.drop n) (by simp; omega)

theorem splitInto_flatten {α : Type} (L : List (List α)) :
    ∀ ns : List Nat, L.map List.length = ns → splitInto L.flatten ns = L := by
  induction L with
  | nil => intro ns h; simp at h; simp [h, splitInto]
  | cons c cs ih =>
    intro ns h
    simp only [List.map_cons] at h
    subst h
    simp only [List.flatten_cons, splitInto, List.take_left, List.drop_left]
    rw [ih _ rfl]

/-- Chunking the output of `partition_softmax` by `n_node` gives exactly the
per-graph softmaxes of the chunked logits. -/
theorem partition_softmax_chunks (E : ℚ → ℚ) (logits : List ℚ) (n_node : List Nat)
    (hsum : n_node.sum = logits.length) :
    splitInto (partition_softmax E logits n_node) n_node
      = (splitInto logits n_node).map (softmax1 E) := by
  apply splitInto_flatten
  rw [List.map_map]
  have hcomp : List.length ∘ softmax1 E = fun xs : List ℚ => xs.length := by
    funext xs; simp [softmax1]
  rw [hcomp]
  have := splitInto_map_length n_node logits hsum
  simpa using this

theorem softmaxDenom_pos (E : ℚ → ℚ) (hE : ∀ x, 0 < E x) (xs : List ℚ) (hne : xs ≠ []) :
    0 < softmaxDenom E xs := by
  apply List.sum_pos
  · intro a ha
    obtain ⟨x, _, rfl⟩ := List.mem_map.mp ha
    exact hE _
  · simpa using hne

theorem softmax1_sum (E : ℚ → ℚ) (hE : ∀ x, 0 < E x) (xs : List ℚ) (hne : xs ≠ []) :
    (softmax1 E xs).sum = 1 := by
  have hD := softmaxDenom_pos E hE xs hne
  unfold softmax1
  rw [show (fun x => E (x - maxD xs) / softmaxDenom E xs)
      = fun x => E (x - maxD xs) * (softmaxDenom E xs)⁻¹ from
    funext fun x => div_eq_mul_inv _ _]
  rw [List.sum_map_mul_right]
  exact mul_inv_cancel₀ (ne_of_gt hD)

theorem splitInto_getD_map_softmax (E : ℚ → ℚ) (logits : List ℚ) (n_node : List Nat) (g : Nat) :
    ((splitInto logits n_node).map (softmax1 E)).getD g []
      = softmax1 E ((splitInto logits n_node).getD g []) := by
  have h := List.getD_map (splitInto logits n_node) ([] : List ℚ) (softmax1 E) (n := g)
  simpa [softmax1_nil] using h

theorem splitInto_getD_length (logits : List ℚ) (n_node : List Nat)
    (hsum : n_node.sum = logits.length) (g : Nat) :
    ((splitInto logits n_node).getD g []).length = n_node.getD g 0 := by
  have hmap := splitInto_map_length n_node logits hsum
  have h1 : ((splitInto logits n_node).map List.length).getD g 0 = n_node.getD g 0 := by
    rw [hmap]
  rw [← h1]
  have h := List.getD_map (splitInto logits n_node) ([] : List ℚ) List.length (n := g)
  simpa using h.symm

/-- C5 (amended): for every graph `g` of the batch with at least one node, the
per-graph focus probabilities produced in evaluation mode — the `n_node`-chunk
`g` of `jraph.partition_softmax(focus_logits, n_node, num_nodes)` — sum to
exactly 1.  The whole unit of mass lies on the graph's real nodes; evaluation
mode has no virtual stop logit (see `focus_probs_with_stop_counterexample`). -/
theorem focus_probs_graph_sum_one (E : ℚ → ℚ) (logits : List ℚ) (n_node : List Nat) (g : Nat)
    (hE : ∀ x, 0 < E x) (hsum : n_node.sum = logits.length)
    (hg : g < n_node.length) (hn : 1 ≤ n_node.getD g 0) :
    ((splitInto (partition_softmax E logits n_node) n_node).getD g []).sum = 1 := by
  rw [partition_softmax_chunks E logits n_node hsum,
    splitInto_getD_map_softmax E logits n_node g]
  apply softmax1_sum E hE
  intro hnil
  have h := splitInto_getD_length logits n_node hsum g
  rw [hnil] at h
  simp only [List.length_nil] at h
  omega

/-- C6: a graph with exactly one node gets focus probability exactly `1` for
that node, and the softmax normalizer of that graph is strictly positive (no
division by zero). -/
theorem single_node_graph_focus_prob (E : ℚ → ℚ) (logits : List ℚ) (n_node : List Nat) (g : Nat)
    (hE : ∀ x, 0 < E x) (hsum : n_node.sum = logits.length)
    (hg : g < n_node.length) (hn : n_node.getD g 0 = 1) :
    (splitInto (partition_softmax E logits n_node) n_node).getD g [] = [1]
    ∧ 0 < softmaxDenom E ((splitInto logits n_node).getD g []) := by
  have hchunklen : ((splitInto logits n_node).getD g []).length = 1 := by
    rw [splitInto_getD_length logits n_node hsum g, hn]
  obtain ⟨x, hx⟩ := List.length_eq_one.mp hchunklen
  constructor
  · rw [partition_softmax_chunks E logits n_node hsum,
      splitInto_getD_map_softmax E logits n_node g, hx]
    show [E (x - maxD [x]) / softmaxDenom E [x]] = [1]
    have hmax : maxD [x] = x := rfl
    have hden : softmaxDenom E [x] = E (x - maxD [x]) := by
      simp [softmaxDenom]
    rw [hden, hmax, sub_self]
    rw [div_self (ne_of_gt (hE 0))]
  · exact hx ▸ softmaxDenom_pos E hE [x] (by simp)

/-- Modelled from the spec: the spec's focus-probability contract appends "an
extra virtual stop logit" to a graph's real-node logits and softmaxes over
all of them, so that the per-graph distribution carries a positive stop mass
(the last entry) alongside the real-node probabilities.  This definition
exists only to be compared against the code's `partition_softmax`, which has
no such logit. -/
def focus_probs_with_stop (E : ℚ → ℚ) (logits_g : List ℚ) (stop_logit : ℚ) : List ℚ :=
  softmax1 E (logits_g ++ [stop_logit])

/-- C5 counterexample: on a batch of one single-node graph with focus logit
`0` (and the abstract exponential instantiated at a positive constant), the
evaluation-mode code assigns the real node probability exactly `1`, leaving
zero complement for any stop outcome, whereas the spec-modelled distribution
with a virtual stop logit gives the real node `1/2` and the stop outcome the
strictly positive mass `1/2`.  The code's focus distribution therefore does
not include any stop mass contributed by a virtual stop logit. -/
theorem focus_probs_with_stop_counterexample :
    partition_softmax (fun _ => 1) [0] [1] = [1]
    ∧ (partition_softmax (fun _ => 1) [0] [1]).sum = 1
    ∧ 1 - (partition_softmax (fun _ => 1) [0] [1]).sum = 0
    ∧ ((focus_probs_with_stop (fun _ => 1) [0] 0).take 1).sum = 1 / 2
    ∧ (focus_probs_with_stop (fun _ => 1) [0] 0).getLastD 0 = 1 / 2
    ∧ partition_softmax (fun _ => 1) [0] [1]
        ≠ (focus_probs_with_stop (fun _ => 1) [0] 0).take 1 := by
  refine ⟨?_, ?_, ?_, ?_, ?_, ?_⟩ <;>
    norm_num [partition_softmax, splitInto, softmax1, softmaxDenom, maxD, focus_probs_with_stop]

/-! ## Evaluation-mode sampling (src/models.py:622-671) -/

/-- `datatypes.EvaluationPredictions`. -/
structure EvaluationPredictions where
  focus_logits : List ℚ
  focus_indices : List Nat
  target_species_logits : List (List ℚ)
  position_coeffs : List (List (List ℚ))
  target_species : List Nat

/-- `jnp.repeat(jnp.arange(num_graphs), n_node, total_repeat_length=num_nodes)`
(src/models.py:640-644): graph id `g` repeated `n_node[g]` times, truncated to
`total` entries or padded (by `jnp.repeat`'s clipped gather, i.e. with the
final id) when shorter. -/
def repeat_ids (num_graphs : Nat) (n_node : List Nat) (total : Nat) : List Nat :=
  let ids := (List.zipWith (fun g n => List.replicate n g) (List.range num_graphs) n_node).flatten
  if total ≤ ids.length then ids.take total
  else ids ++ List.replicate (total - ids.length) (ids.getLastD 0)

namespace MACE

/-- `MACE.get_evaluation_predictions` (src/models.py:622-671), with the
implicit `hk.next_rng_key()` state made an explicit `rng` argument:
per-graph focus softmax, focus sampling through `segment_sample` with the
second key of `jax.random.split(rng)`, species softmax and per-graph
categorical species draw with per-graph sub-keys of the second key of the
next split, then position coefficients from the sampled focus embedding and
sampled species. -/
def get_evaluation_predictions {Emb : Type} [Inhabited Emb] (M : MACEModel Emb)
    (R : RandomModel) (E : ℚ → ℚ) (graphs : Fragment) (rng : Key) :
    EvaluationPredictions :=
  let num_nodes := graphs.nodes.positions.length
  let num_graphs := graphs.n_node.length
  let node_embs := node_embeddings M graphs
  let focus_logits := node_embs.map M.focusLogit
  let focus_probs := partition_softmax E focus_logits graphs.n_node
  let s1 := R.split2 rng
  let segment_ids := repeat_ids num_graphs graphs.n_node num_nodes
  let focus_indices := segment_sample R focus_probs segment_ids num_graphs s1.2
  let focus_node_embeddings := focus_indices.map (fun i => node_embs.getD i default)
  let target_species_logits := focus_node_embeddings.map M.speciesLogits
  let target_species_probs := target_species_logits.map (softmax1 E)
  let s2 := R.split2 s1.1
  let species_rngs := R.splitN s2.2 num_graphs
  let target_species :=
    List.zipWith (fun k p => random_choice R k p) species_rngs target_species_probs
  let position_coeffs := List.zipWith M.positionCoeffs focus_node_embeddings target_species
  { focus_logits := focus_logits
    focus_indices := focus_indices
    target_species_logits := target_species_logits
    position_coeffs := position_coeffs
    target_species := target_species }

end MACE

/-- C3: the evaluation-mode sampler is a pure function of the supplied
pseudo-random generator state, the model parameters and the input batch: two
calls with equal generator states (and the same parameters and batch) return
identical sampled focus indices, identical sampled target species and
identical position coefficients. -/
theorem evaluation_predictions_deterministic {Emb : Type} [Inhabited Emb]
    (M : MACEModel Emb) (R : RandomModel) (E : ℚ → ℚ) (graphs : Fragment)
    (rng rng' : Key) (h : rng = rng') :
    (MACE.get_evaluation_predictions M R E graphs rng).focus_indices
      = (MACE.get_evaluation_predictions M R E graphs rng').focus_indices
    ∧ (MACE.get_evaluation_predictions M R E graphs rng).target_species
      = (MACE.get_evaluation_predictions M R E graphs rng').target_species
    ∧ (MACE.get_evaluation_predictions M R E graphs rng).position_coeffs
      = (MACE.get_evaluation_predictions M R E graphs rng').position_coeffs := by
  subst h
  exact ⟨rfl, rfl, rfl⟩

/-! ## The GSchNet species head (src/models.py:404-467) -/

/-- `NUM_ELEMENTS = 5` (src/models.py:18). -/
def NUM_ELEMENTS : Nat := 5

/-- Python exception kinds relevant to the translated functions. -/
inductive PyErr where
  | valueError
  | assertionError
  | typeError
  | attributeError
  | indexError
deriving DecidableEq

/-- Abstract learned parameters of `GSchNet`: `species_embed` is one row of
`hk.Embed(NUM_ELEMENTS, latent_size)` and `mlp` is
`hk.nets.MLP([latent, latent, NUM_ELEMENTS])` applied to one innermost
(last-axis) vector. -/
structure GSchNetModel where
  species_embed : Nat → List ℚ
  mlp : List ℚ → List ℚ

/-- The shape tuple of a 3-D nested-list tensor (all inner lists of a
well-formed tensor have equal lengths, so the head suffices). -/
def shape3 (x : List (List (List ℚ))) : List Nat :=
  [x.length, (x.headD []).length, ((x.headD []).headD []).length]

/-- Elementwise sum of two 2-D arrays. -/
def addMat (a b : List (List ℚ)) : List (List ℚ) :=
  List.zipWith (List.zipWith (· + ·)) a b

/-- Sum of a list of 2-D arrays. -/
def sumMats : List (List (List ℚ)) → List (List ℚ)
  | [] => []
  | m :: ms => ms.foldl addMat m

/-- `e3nn.scatter_sum(x, nel=n_node)`: chunk the first axis by `n_node` and
sum each chunk. -/
def scatter_sum (x : List (List (List ℚ))) (n_node : List Nat) : List (List (List ℚ)) :=
  (splitInto x n_node).map sumMats

namespace GSchNet

/-- `GSchNet.target_species_logits` (src/models.py:433-446), translated with
its two shape assertions and Python's implicit `return None`: each node
embedding is multiplied elementwise with every species embedding, the MLP is
applied along the last axis (giving a `(num_nodes, NUM_ELEMENTS, out)` 3-D
array), the first `assert` compares that 3-D shape with the 2-D
`(num_nodes, NUM_ELEMENTS)`, `e3nn.scatter_sum` aggregates per graph, the
second `assert` compares again, and the body ends without a `return`
statement, so the Python function returns `None` on the success path. -/
def target_species_logits (G : GSchNetModel) (node_embeddings : List (List ℚ))
    (n_node : List Nat) : Except PyErr (Option (List (List ℚ))) :=
  let num_nodes := node_embeddings.length
  let num_graphs := n_node.length
  let all_species_embeddings := (List.range NUM_ELEMENTS).map G.species_embed
  let node_and_species_embeddings :=
    node_embeddings.map
      (fun ne => all_species_embeddings.map (fun se => List.zipWith (· * ·) ne se))
  let tsl := node_and_species_embeddings.map (fun rows => rows.map G.mlp)
  if shape3 tsl = [num_nodes, NUM_ELEMENTS] then
    let tsl' := scatter_sum tsl n_node
    if shape3 tsl' = [num_graphs, NUM_ELEMENTS] then
      Except.ok none
    else Except.error PyErr.assertionError
  else Except.error PyErr.assertionError

end GSchNet

/-- Whatever its input, `GSchNet.target_species_logits` never returns an
array: every control path ends in an assertion failure or in Python's
implicit `None`. -/
theorem gschnet_species_head_never_returns (G : GSchNetModel)
    (ne : List (List ℚ)) (nn : List Nat) (arr : List (List ℚ)) :
    GSchNet.target_species_logits G ne nn ≠ Except.ok (some arr) := by
  simp only [GSchNet.target_species_logits]
  split
  · split <;> simp
  · simp

/-- A concrete `GSchNet` parameter bundle for evaluating the failing input. -/
def G0 : GSchNetModel where
  species_embed := fun n => [(n : ℚ) + 1]
  mlp := fun l => l

/-- C7 (code bug): on a one-node, one-graph batch with `latent_size = 1`, the
species head raises `AssertionError`: the MLP output is the 3-D array of
shape `(num_nodes, NUM_ELEMENTS, out)` whose shape can never equal the
asserted 2-D `(num_nodes, NUM_ELEMENTS)` — and even without the assertions
the function body has no `return` statement, so it cannot return the
per-graph `(num_graphs, NUM_ELEMENTS)` aggregation the claim describes. -/
theorem gschnet_species_head_failing :
    GSchNet.target_species_logits G0 [[1]] [1] = Except.error PyErr.assertionError := rfl

/-! ## Radial bins (position_predictor.py:35-37 and 121-123; src/models.py:17) -/

/-- `jnp.linspace(start, stop, num)` (endpoint included; `num = 1` gives
`[start]`, `num = 0` gives the empty array, matching numpy). -/
def linspace (start stop : ℚ) (num : Nat) : List ℚ :=
  (List.range num).map (fun i : Nat => start + (stop - start) * (i : ℚ) / ((num - 1 : Nat) : ℚ))

namespace TargetPositionPredictor

/-- `TargetPositionPredictor.create_radii`
(src/symphony/models/position_predictor.py:35-37):
`jnp.linspace(self.min_radius, self.max_radius, self.num_radii)`. -/
def create_radii (min_radius max_radius : ℚ) (num_radii : Nat) : List ℚ :=
  linspace min_radius max_radius num_radii

end TargetPositionPredictor

namespace FactorizedTargetPositionPredictor

/-- `FactorizedTargetPositionPredictor.create_radii`
(src/symphony/models/position_predictor.py:121-123): the identical
`jnp.linspace(self.min_radius, self.max_radius, self.num_radii)`. -/
def create_radii (min_radius max_radius : ℚ) (num_radii : Nat) : List ℚ :=
  linspace min_radius max_radius num_radii

end FactorizedTargetPositionPredictor

/-- `jnp.arange(start, stop, step)`: `start + i * step` for
`i < ⌈(stop - start) / step⌉`. -/
def arange (start stop step : ℚ) : List ℚ :=
  (List.range ((stop - start) / step).ceil.toNat).map (fun i : Nat => start + (i : ℚ) * step)

/-- `RADII = jnp.arange(0.75, 2.03, 0.02)` (src/models.py:17). -/
def RADII : List ℚ := arange 0.75 2.03 0.02

theorem pairwise_lt_map_range (f : Nat → ℚ) (n : Nat)
    (hf : ∀ i j : Nat, i < j → f i < f j) :
    ((List.range n).map f).Pairwise (· < ·) := by
  rw [List.pairwise_map]
  exact (List.pairwise_lt_range n).imp (fun h => hf _ _ h)

theorem linspace_pairwise (a b : ℚ) (n : Nat) (hab : a < b) (hn : 2 ≤ n) :
    (linspace a b n).Pairwise (· < ·) := by
  rw [linspace]
  apply pairwise_lt_map_range
  intro i j hij
  have hm : (0 : ℚ) < ((n - 1 : Nat) : ℚ) := by
    have : 1 ≤ n - 1 := by omega
    exact_mod_cast Nat.lt_of_lt_of_le Nat.zero_lt_one this
  have hcast : (i : ℚ) < (j : ℚ) := by exact_mod_cast hij
  have h1 : (b - a) * i < (b - a) * j :=
    mul_lt_mul_of_pos_left hcast (by linarith)
  have h2 : (b - a) * i * ((n - 1 : Nat) : ℚ)⁻¹ < (b - a) * j * ((n - 1 : Nat) : ℚ)⁻¹ :=
    mul_lt_mul_of_pos_right h1 (inv_pos.mpr hm)
  rw [div_eq_mul_inv, div_eq_mul_inv]
  linarith

theorem linspace_headD (a b : ℚ) (n : Nat) (hn : 1 ≤ n) :
    (linspace a b n).headD 0 = a := by
  obtain ⟨m, rfl⟩ : ∃ m, n = m + 1 := ⟨n - 1, by omega⟩
  rw [linspace, List.range_succ_eq_map]
  simp

theorem linspace_getLastD (a b : ℚ) (n : Nat) (hn : 2 ≤ n) :
    (linspace a b n).getLastD 0 = b := by
  obtain ⟨m, rfl⟩ : ∃ m, n = m + 1 := ⟨n - 1, by omega⟩
  rw [linspace, List.range_succ, List.map_append]
  simp only [List.map_cons, List.map_nil]
  rw [List.getLastD_concat]
  have hm : ((m : ℚ)) ≠ 0 := Nat.cast_ne_zero.mpr (by omega)
  have hms : ((m + 1 - 1 : Nat) : ℚ) = (m : ℚ) := by norm_num
  rw [hms]
  field_simp

theorem linspace_length (a b : ℚ) (n : Nat) : (linspace a b n).length = n := by
  simp [linspace]

/-- C8: for `min_radius < max_radius` and `num_radii ≥ 2`, both
`create_radii` functions return the same strictly increasing sequence of
`num_radii` radii starting at `min_radius` and ending at `max_radius`; and
the module-level `RADII` constant is strictly increasing. -/
theorem create_radii_monotone :
    (∀ (mn mx : ℚ) (n : Nat), mn < mx → 2 ≤ n →
      (TargetPositionPredictor.create_radii mn mx n).Pairwise (· < ·)
      ∧ (TargetPositionPredictor.create_radii mn mx n).headD 0 = mn
      ∧ (TargetPositionPredictor.create_radii mn mx n).getLastD 0 = mx
      ∧ (TargetPositionPredictor.create_radii mn mx n).length = n
      ∧ FactorizedTargetPositionPredictor.create_radii mn mx n
          = TargetPositionPredictor.create_radii mn mx n)
    ∧ RADII.Pairwise (· < ·) := by
  constructor
  · intro mn mx n hab hn
    exact ⟨linspace_pairwise mn mx n hab hn, linspace_headD mn mx n (by omega),
      linspace_getLastD mn mx n hn, linspace_length mn mx n, rfl⟩
  · rw [RADII, arange]
    apply pairwise_lt_map_range
    intro i j hij
    have hcast : (i : ℚ) < (j : ℚ) := by exact_mod_cast hij
    have := mul_lt_mul_of_pos_right hcast (show (0 : ℚ) < 0.02 by norm_num)
    linarith

/-! ## `S2Activation` (src/models.py:74-167) -/

namespace S2Activation

/-- `S2Activation._complete_lmax_and_res` (src/models.py:83-119), translated
with Python's exception behaviour: `ValueError` when all three arguments are
`None`, the fill-in rules for `res_beta`, `res_alpha` and `lmax` in source
order (Python `//` on nonnegative divisors is Euclidean division, matching
`Int` division here), the two trailing `assert`s as `AssertionError`, and the
`TypeError` Python would raise if a value were still `None` at the asserts. -/
def complete_lmax_and_res (lmax res_beta res_alpha : Option Int) :
    Except PyErr (Int × Int × Int) :=
  if lmax = none ∧ res_beta = none ∧ res_alpha = none then
    Except.error PyErr.valueError
  else
    let rb : Option Int :=
      match res_beta with
      | some rb => some rb
      | none =>
        match lmax with
        | some l => some (2 * (l + 1))
        | none =>
          match res_alpha with
          | some ra => some (2 * ((ra + 1) / 2))
          | none => none
    let ra : Option Int :=
      match res_alpha with
      | some ra => some ra
      | none =>
        match lmax with
        | some l =>
          match rb with
          | some rb => some (max (2 * l + 1) (rb - 1))
          | none => some (2 * l + 1)
        | none =>
          match rb with
          | some rb => some (rb - 1)
          | none => none
    let lm : Option Int :=
      match lmax with
      | some l => some l
      | none =>
        match rb, ra with
        | some rb, some ra => some (min (rb / 2 - 1) ((ra - 1) / 2))
        | _, _ => none
    match lm, rb, ra with
    | some l, some rb, some ra =>
      if rb % 2 = 0 ∧ l + 1 ≤ rb / 2 then Except.ok (l, rb, ra)
      else Except.error PyErr.assertionError
    | _, _, _ => Except.error PyErr.typeError

end S2Activation

/-- C10: `_complete_lmax_and_res` raises `ValueError` exactly when all three
arguments are `None`; given only `lmax` it returns
`(lmax, 2*(lmax+1), 2*lmax+1)`; and every triple it returns has an even
`res_beta` with `lmax + 1 ≤ res_beta / 2` (the two assertions). -/
theorem complete_lmax_and_res_spec :
    (∀ lmax res_beta res_alpha : Option Int,
      S2Activation.complete_lmax_and_res lmax res_beta res_alpha
          = Except.error PyErr.valueError
        ↔ (lmax = none ∧ res_beta = none ∧ res_alpha = none))
    ∧ (∀ l : Int,
      S2Activation.complete_lmax_and_res (some l) none none
        = Except.ok (l, 2 * (l + 1), 2 * l + 1))
    ∧ (∀ (lmax res_beta res_alpha : Option Int) (l rb ra : Int),
      S2Activation.complete_lmax_and_res lmax res_beta res_alpha = Except.ok (l, rb, ra) →
        rb % 2 = 0 ∧ l + 1 ≤ rb / 2) := by
  refine ⟨?_, ?_, ?_⟩
  · intro lmax res_beta res_alpha
    constructor
    · intro h
      by_contra hne
      rw [S2Activation.complete_lmax_and_res.eq_def, if_neg hne] at h
      rcases lmax with _ | l <;> rcases res_beta with _ | rb <;>
        rcases res_alpha with _ | ra <;> simp_all <;> split at h <;> simp_all
    · intro h
      rw [S2Activation.complete_lmax_and_res.eq_def, if_pos h]
  · intro l
    rw [S2Activation.complete_lmax_and_res.eq_def, if_neg (by simp)]
    simp only []
    rw [if_pos ?_]
    · have hmax : max (2 * l + 1) (2 * (l + 1) - 1) = 2 * l + 1 := by
        rw [max_eq_left]; omega
      rw [hmax]
    · constructor
      · omega
      · omega
  · intro lmax res_beta res_alpha l rb ra h
    rw [S2Activation.complete_lmax_and_res.eq_def] at h
    by_cases hall : lmax = none ∧ res_beta = none ∧ res_alpha = none
    · rw [if_pos hall] at h; exact absurd h (by simp)
    · rw [if_neg hall] at h
      rcases lmax with _ | l' <;> rcases res_beta with _ | rb' <;>
        rcases res_alpha with _ | ra' <;> (try simp_all) <;> (try split at h) <;>
        (try simp_all) <;> omega

/-- Modelled from the spec: the external `e3nn.to_s2grid` / `e3nn.from_s2grid`
spherical transforms, the pointwise `SphericalSignal.apply`, and `nn.LayerNorm`
are library code not present in this repository; they are represented by
abstract functions.  `to_s2grid c res_beta res_alpha` is the forward transform
of a coefficient array to the angular grid, `from_s2grid g lmax_out lmax_in`
the inverse transform back to coefficients, `applyGrid f` the pointwise
application of `f` to the grid signal, and `layerNorm` the optional
normalization.  The spec's round-trip contract — forward then inverse at the
matched resolution recovers the coefficients — appears as the hypothesis
`hRound` of `s2_body_identity_if_roundtrip`. -/
structure S2TransformModel (Coeffs Grid : Type) where
  to_s2grid : Coeffs → Nat → Nat → Grid
  from_s2grid : Grid → Nat → Nat → Coeffs
  applyGrid : (ℚ → ℚ) → Grid → Grid
  layerNorm : Grid → Grid

/-- The transform body of `S2Activation.__call__` (src/models.py:153-167),
i.e. what follows the `_extract_irreps_info` step: forward transform at
`(res_beta, res_alpha)`, pointwise activation, optional layer norm, inverse
transform at `(lmax_out, lmax_in = lmax)`.  In the source this body is dead
code: `_extract_irreps_info` raises before it can run (see
`s2_activation_call_never_returns`). -/
def S2Activation_body {Coeffs Grid : Type} (T : S2TransformModel Coeffs Grid)
    (activation : ℚ → ℚ) (layer_norm : Bool)
    (lmax res_beta res_alpha lmax_out : Nat) (feature_coeffs : Coeffs) : Coeffs :=
  let features := T.to_s2grid feature_coeffs res_beta res_alpha
  let features := T.applyGrid activation features
  let features := if layer_norm then T.layerNorm features else features
  T.from_s2grid features lmax_out lmax

/-- The intended semantics behind the claim: if the forward spherical
transform at the matched resolution `res_beta = 2*(lmax+1)`,
`res_alpha = 2*lmax+1` followed by the inverse transform at the same `lmax`
recovers every coefficient array (the spec's round-trip contract for the
external transforms, exact in this rational model), and pointwise application
of the identity map leaves a grid signal unchanged, then the transform body
of `S2Activation.__call__` with the identity activation and `layer_norm`
disabled would be the identity on coefficient arrays.  The actual `__call__`
never reaches this body (see `s2_activation_call_never_returns`). -/
theorem s2_body_identity_if_roundtrip {Coeffs Grid : Type} (T : S2TransformModel Coeffs Grid)
    (lmax : Nat)
    (hRound : ∀ c : Coeffs,
      T.from_s2grid (T.to_s2grid c (2 * (lmax + 1)) (2 * lmax + 1)) lmax lmax = c)
    (hApp : ∀ g : Grid, T.applyGrid (fun x => x) g = g)
    (c : Coeffs) :
    S2Activation_body T (fun x => x) false lmax (2 * (lmax + 1)) (2 * lmax + 1) lmax c = c := by
  show T.from_s2grid
      (if false then T.layerNorm (T.applyGrid (fun x => x) (T.to_s2grid c (2 * (lmax + 1)) (2 * lmax + 1)))
       else T.applyGrid (fun x => x) (T.to_s2grid c (2 * (lmax + 1)) (2 * lmax + 1))) lmax lmax = c
  rw [if_neg (by simp), hApp, hRound]

namespace S2Activation

/-- Python attribute names involved in `S2Activation`: its five dataclass
fields (src/models.py:77-81) and the name `res` that
`_extract_irreps_info` tries to read (src/models.py:136 and 139). -/
inductive AttrName where
  | irreps
  | resolution
  | activation
  | lmax_out
  | layer_norm
  | res
deriving DecidableEq

/-- The `S2Activation` flax module (src/models.py:74-81): a dataclass with
exactly the fields `irreps`, `resolution`, `activation`, `lmax_out` and
`layer_norm`. -/
structure Module (Irreps Res Act : Type) where
  irreps : Irreps
  resolution : Res
  activation : Act
  lmax_out : Option Int
  layer_norm : Bool

/-- A Python attribute value of an `S2Activation` instance. -/
inductive AttrVal (Irreps Res Act : Type) where
  | irrepsV : Irreps → AttrVal Irreps Res Act
  | resolutionV : Res → AttrVal Irreps Res Act
  | activationV : Act → AttrVal Irreps Res Act
  | lmaxOutV : Option Int → AttrVal Irreps Res Act
  | layerNormV : Bool → AttrVal Irreps Res Act

/-- The attribute dictionary of an `S2Activation` instance: exactly its five
dataclass fields with their values. -/
def Module.attrs {Irreps Res Act : Type} (m : Module Irreps Res Act) :
    List (AttrName × AttrVal Irreps Res Act) :=
  [(AttrName.irreps, AttrVal.irrepsV m.irreps),
   (AttrName.resolution, AttrVal.resolutionV m.resolution),
   (AttrName.activation, AttrVal.activationV m.activation),
   (AttrName.lmax_out, AttrVal.lmaxOutV m.lmax_out),
   (AttrName.layer_norm, AttrVal.layerNormV m.layer_norm)]

/-- Python attribute lookup `self.<n>`: the attribute's value when `n` is
among the instance's attributes, `AttributeError` otherwise. -/
def Module.getattr {Irreps Res Act : Type} (m : Module Irreps Res Act)
    (n : AttrName) : Except PyErr (AttrVal Irreps Res Act) :=
  match m.attrs.find? (fun p => decide (p.1 = n)) with
  | some p => Except.ok p.2
  | none => Except.error PyErr.attributeError

/-- Looking up `res` on an `S2Activation` instance raises `AttributeError`:
`res` is not among the dataclass fields (the field is `resolution`). -/
theorem getattr_res {Irreps Res Act : Type} (m : Module Irreps Res Act) :
    m.getattr AttrName.res = Except.error PyErr.attributeError := rfl

/-- `S2Activation._extract_irreps_info` (src/models.py:121-142).
`simplified_irreps` is `e3nn.Irreps(self.irreps).simplify()` as a list of
`(mul, (l, p))` entries; `irreps[-1]` supplies `lmax` (an `IndexError` on an
empty irreps), then the two assertions check `all(mul == 1 ...)` and
`irreps.ls == list(range(lmax + 1))` (with `ls` repeating each `l` `mul`
times).  Both branches of the `try` then evaluate the argument `self.res`;
that attribute lookup raises `AttributeError`, which the surrounding
`except TypeError` does not catch, so the error propagates and the `return`
is never reached.  The `Except.ok` branch of the lookup — where the source
would go on to call `_complete_lmax_and_res` — is unreachable by
`getattr_res`. -/
def extract_irreps_info {Irreps Res Act : Type} (m : Module Irreps Res Act)
    (simplified_irreps : List (Nat × Nat × Int)) :
    Except PyErr (Int × Int × Int × Int) :=
  match simplified_irreps.getLast? with
  | none => Except.error PyErr.indexError
  | some (_, lmax, _) =>
    if (∀ p ∈ simplified_irreps, p.1 = 1)
        ∧ simplified_irreps.flatMap (fun p => List.replicate p.1 p.2.1)
            = List.range (lmax + 1) then
      match m.getattr AttrName.res with
      | Except.error e => Except.error e
      | Except.ok _ => Except.error PyErr.typeError
    else Except.error PyErr.assertionError

/-- `_extract_irreps_info` never returns a value: every path raises. -/
theorem extract_irreps_info_never_ok {Irreps Res Act : Type}
    (m : Module Irreps Res Act) (simplified_irreps : List (Nat × Nat × Int))
    (t : Int × Int × Int × Int) :
    extract_irreps_info m simplified_irreps ≠ Except.ok t := by
  unfold extract_irreps_info
  intro h
  split at h
  · simp at h
  · split at h
    · rw [getattr_res] at h
      simp at h
    · simp at h

/-- `S2Activation.__call__` (src/models.py:144-167): first
`_extract_irreps_info` (which always raises), then the assertion
`feature_coeffs.irreps == self.irreps`, then the transform body
`S2Activation_body` using `self.activation` and `self.layer_norm`. -/
def call {Irreps Res Coeffs Grid : Type} [DecidableEq Irreps]
    (T : S2TransformModel Coeffs Grid) (m : Module Irreps Res (ℚ → ℚ))
    (simplified_irreps : List (Nat × Nat × Int)) (coeffs_irreps : Irreps)
    (feature_coeffs : Coeffs) : Except PyErr Coeffs :=
  match extract_irreps_info m simplified_irreps with
  | Except.error e => Except.error e
  | Except.ok (lmax, res_beta, res_alpha, lmax_out) =>
    if coeffs_irreps = m.irreps then
      Except.ok (S2Activation_body T m.activation m.layer_norm
        lmax.toNat res_beta.toNat res_alpha.toNat lmax_out.toNat feature_coeffs)
    else Except.error PyErr.assertionError

end S2Activation

/-- No call of `S2Activation.__call__` ever returns a coefficient array: the
`self.res` attribute lookup inside `_extract_irreps_info` fails on every path
that reaches it, and every other path raises an index or assertion error
first.  In particular `__call__` is never the identity on coefficients. -/
theorem s2_activation_call_never_returns {Irreps Res Coeffs Grid : Type} [DecidableEq Irreps]
    (T : S2TransformModel Coeffs Grid) (m : S2Activation.Module Irreps Res (ℚ → ℚ))
    (simplified_irreps : List (Nat × Nat × Int)) (coeffs_irreps : Irreps)
    (feature_coeffs out : Coeffs) :
    S2Activation.call T m simplified_irreps coeffs_irreps feature_coeffs
      ≠ Except.ok out := by
  unfold S2Activation.call
  intro h
  match hx : S2Activation.extract_irreps_info m simplified_irreps with
  | Except.error e => rw [hx] at h; exact absurd h (by simp)
  | Except.ok t => exact S2Activation.extract_irreps_info_never_ok m simplified_irreps t hx

/-! ## Concrete instantiations used by the witnesses -/

/-- A concrete rational-valued parameter bundle for the `MACE` wrapper. -/
def M0 : MACEModel ℚ where
  encoder := fun vecs sp _ _ => sp.map (fun n => (n : ℚ)) ++ vecs.map (fun v => v.1)
  focusLogit := fun e => e
  speciesLogits := fun e => [e, e + 1]
  positionCoeffs := fun e t => [[e, (t : ℚ)]]

/-- A concrete vector-valued parameter bundle whose encoder returns the edge
vectors themselves (trivially equivariant). -/
def MV : MACEModel Vec3 where
  encoder := fun vecs _ _ _ => vecs
  focusLogit := fun v => v.1
  speciesLogits := fun v => [v.1]
  positionCoeffs := fun v t => [[v.1, (t : ℚ)]]

/-- A concrete pseudo-random model. -/
def R0 : RandomModel where
  split2 := fun k => (2 * k + 1, 2 * k + 2)
  splitN := fun k n => (List.range n).map (fun i => k + i + 1)
  uniform := fun _ => 1 / 2

/-- A concrete positive stand-in for the exponential. -/
def E0 : ℚ → ℚ := fun _ => 1

/-- A concrete two-graph batch: two nodes in graph 0, one node in graph 1. -/
def frag0 : Fragment where
  nodes := { positions := [(0, 0, 0), (1, 0, 0), (0, 1, 0)], species := [0, 1, 2] }
  senders := [0, 1]
  receivers := [1, 0]
  n_node := [2, 1]
  globals := { target_species := [1, 2], stop := [false, true] }

/-- Rotation by 90 degrees about the z-axis. -/
def A90 : Mat3 where
  r1 := (0, -1, 0)
  r2 := (1, 0, 0)
  r3 := (0, 0, 1)

/-- A concrete transform pair satisfying the round-trip contract. -/
def T0 : S2TransformModel (List ℚ) (List ℚ) where
  to_s2grid := fun c _ _ => c
  from_s2grid := fun g _ _ => g
  applyGrid := fun f g => g.map f
  layerNorm := fun g => g

/-! ## Witnesses -/

/-- Witness for `training_predictions_all_heads` on `M0`/`frag0`, graph 1. -/
theorem training_predictions_all_heads_witness :
    (1 < frag0.n_node.length ∧ 1 < frag0.globals.target_species.length)
    ∧ ((MACE.get_training_predictions M0 frag0).focus_logits.length
          = (MACE.node_embeddings M0 frag0).length
      ∧ (MACE.get_training_predictions M0 frag0).target_species_logits.get? 1
          = some (M0.speciesLogits
              ((MACE.node_embeddings M0 frag0).getD ((frag0.n_node.take 1).sum) default))
      ∧ (MACE.get_training_predictions M0 frag0).position_coeffs.get? 1
          = some (M0.positionCoeffs
              ((MACE.node_embeddings M0 frag0).getD ((frag0.n_node.take 1).sum) default)
              (frag0.globals.target_species.getD 1 0))
      ∧ MACE.get_training_predictions M0 (setStop frag0 [true, true])
          = MACE.get_training_predictions M0 frag0) :=
  ⟨⟨by decide, by decide⟩,
    training_predictions_all_heads M0 frag0 [true, true] 1 (by decide) (by decide)⟩

/-- Witness for `node_embeddings_equivariant` on `MV`/`A90`/`frag0`. -/
theorem node_embeddings_equivariant_witness :
    MACE.node_embeddings MV (rotateFragment A90 frag0)
      = (MACE.node_embeddings MV frag0).map A90.apply :=
  node_embeddings_equivariant MV A90 A90.apply frag0 (fun _ _ _ _ => rfl)

/-- Witness for `evaluation_predictions_deterministic` at generator state 0. -/
theorem evaluation_predictions_deterministic_witness :
    (0 : Key) = 0
    ∧ ((MACE.get_evaluation_predictions M0 R0 E0 frag0 0).focus_indices
          = (MACE.get_evaluation_predictions M0 R0 E0 frag0 0).focus_indices
      ∧ (MACE.get_evaluation_predictions M0 R0 E0 frag0 0).target_species
          = (MACE.get_evaluation_predictions M0 R0 E0 frag0 0).target_species
      ∧ (MACE.get_evaluation_predictions M0 R0 E0 frag0 0).position_coeffs
          = (MACE.get_evaluation_predictions M0 R0 E0 frag0 0).position_coeffs) :=
  ⟨rfl, evaluation_predictions_deterministic M0 R0 E0 frag0 0 0 rfl⟩

/-- Witness for `segment_sample_in_segment` on segment 1 of a 3-node batch. -/
theorem segment_sample_in_segment_witness :
    (segment_sample R0 [1, 0, 2] [0, 0, 1] 2 0).get? 1
      = some (sample_for_segment R0 [1, 0, 2] [0, 0, 1] ((R0.splitN 0 2).getD 1 0) 1)
    ∧ sample_for_segment R0 [1, 0, 2] [0, 0, 1] ((R0.splitN 0 2).getD 1 0) 1
        < ([0, 0, 1] : List Nat).length
    ∧ ([0, 0, 1] : List Nat).getD
        (sample_for_segment R0 [1, 0, 2] [0, 0, 1] ((R0.splitN 0 2).getD 1 0) 1) 0 = 1 :=
  segment_sample_in_segment R0 [1, 0, 2] [0, 0, 1] 2 0 1 (by decide) (by decide)
    (fun k => ⟨by norm_num [R0], by norm_num [R0]⟩)
    (by
      intro q hq
      simp only [List.mem_cons, List.not_mem_nil, or_false] at hq
      rcases hq with rfl | rfl | rfl <;> norm_num)
    (by decide) 2 (by decide) (by decide) (by norm_num)

/-- Witness for `focus_probs_graph_sum_one` on graph 0 of a 3-node batch. -/
theorem focus_probs_graph_sum_one_witness :
    ((splitInto (partition_softmax E0 [0, 0, 0] [2, 1]) [2, 1]).getD 0 []).sum = 1 :=
  focus_probs_graph_sum_one E0 [0, 0, 0] [2, 1] 0 (fun x => by norm_num [E0]) (by decide)
    (by decide) (by decide)

/-- Witness for `single_node_graph_focus_prob` on the single-node graph 1. -/
theorem single_node_graph_focus_prob_witness :
    (splitInto (partition_softmax E0 [0, 0, 0] [2, 1]) [2, 1]).getD 1 [] = [1]
    ∧ 0 < softmaxDenom E0 ((splitInto [0, 0, 0] [2, 1]).getD 1 []) :=
  single_node_graph_focus_prob E0 [0, 0, 0] [2, 1] 1 (fun x => by norm_num [E0]) (by decide)
    (by decide) (by decide)

/-- Witness for `create_radii_monotone` at `min = 1`, `max = 2`, `num = 3`. -/
theorem create_radii_monotone_witness :
    ((1 : ℚ) < 2 ∧ 2 ≤ 3)
    ∧ ((TargetPositionPredictor.create_radii 1 2 3).Pairwise (· < ·)
      ∧ (TargetPositionPredictor.create_radii 1 2 3).headD 0 = 1
      ∧ (TargetPositionPredictor.create_radii 1 2 3).getLastD 0 = 2
      ∧ (TargetPositionPredictor.create_radii 1 2 3).length = 3
      ∧ FactorizedTargetPositionPredictor.create_radii 1 2 3
          = TargetPositionPredictor.create_radii 1 2 3) :=
  ⟨⟨by norm_num, by norm_num⟩, create_radii_monotone.1 1 2 3 (by norm_num) (by norm_num)⟩

/-- `s2_body_identity_if_roundtrip` exercised on the identity transform pair. -/
theorem s2_body_identity_if_roundtrip_witness :
    S2Activation_body T0 (fun x => x) false 1 (2 * (1 + 1)) (2 * 1 + 1) 1 [1, 0, 0, 0]
      = [1, 0, 0, 0] :=
  s2_body_identity_if_roundtrip T0 1 (fun _ => rfl) (fun g => by simp [T0]) [1, 0, 0, 0]

/-- A concrete `S2Activation` module instance: irreps tag `0`, resolution
`100`, identity activation, `lmax_out = None`, `layer_norm = False` — the
claim's configuration. -/
def m0 : S2Activation.Module Int Int (ℚ → ℚ) where
  irreps := 0
  resolution := 100
  activation := fun x => x
  lmax_out := none
  layer_norm := false

/-- C9 (code bug): a concrete call of `S2Activation.__call__` with the
identity activation and `layer_norm` disabled, on well-formed irreps
`1x0e + 1x1o` (simplified entries `(1, 0, +1)` and `(1, 1, -1)`, `lmax = 1`)
and the matching coefficient array, raises `AttributeError`:
`_extract_irreps_info` reads `self.res`, but the dataclass field is named
`resolution`, and `except TypeError` does not catch `AttributeError`.  The
call never reaches the spherical transforms and is never the identity on
coefficients (see `s2_activation_call_never_returns` for every input, and
`s2_body_identity_if_roundtrip` for the intended behaviour of the dead
transform body). -/
theorem s2_activation_call_attribute_error :
    S2Activation.call T0 m0 [(1, 0, 1), (1, 1, -1)] 0 [1, 0, 0, 0]
      = Except.error PyErr.attributeError := rfl

/-- Witness for `complete_lmax_and_res_spec` at concrete arguments. -/
theorem complete_lmax_and_res_spec_witness :
    S2Activation.complete_lmax_and_res none none none = Except.error PyErr.valueError
    ∧ S2Activation.complete_lmax_and_res (some 2) none none = Except.ok (2, 6, 5)
    ∧ ((6 : Int) % 2 = 0 ∧ (2 : Int) + 1 ≤ 6 / 2) :=
  ⟨(complete_lmax_and_res_spec.1 none none none).mpr ⟨rfl, rfl, rfl⟩,
    by have h := complete_lmax_and_res_spec.2.1 2; norm_num at h; exact h,
    complete_lmax_and_res_spec.2.2 (some 2) none none 2 6 5
      (by have h := complete_lmax_and_res_spec.2.1 2; norm_num at h; exact h)⟩
